import Mathlib

/-!
Verification of the xreserve-relay indexer (TypeScript sources under
`indexer/src/`): a shallow embedding of the job store, intake API,
attestation-message validator, submitter failure classifier, outcome
classifier and token-bucket rate limiter, with theorems about the
spec's claims.

Conventions of the embedding:
* JavaScript strings are Lean `String`; `String.prototype.toLowerCase`
  is `strToLower`; `String.prototype.includes` is `strContains`.
* Byte arrays (`Uint8Array`) are `List Nat` with each entry a byte value.
* ISO-8601 timestamps are modelled as `Nat` instants (ISO strings compare
  lexicographically consistently with time, and no claim depends on the
  textual format).
* The SQLite `relay_jobs` table is a `List RelayJob`; SQL statements are
  translated into the corresponding list operations.
-/

set_option maxRecDepth 100000

namespace XRelay

/-- JavaScript `String.prototype.toLowerCase`, characterwise (the inputs
used by the indexer are ASCII hex strings). -/
def strToLower (s : String) : String :=
  String.mk (s.toList.map Char.toLower)

/-- `listStartsWith hay needle` is true when `needle` occurs at the head
of `hay`. -/
def listStartsWith : List Char → List Char → Bool
  | _, [] => true
  | [], _ :: _ => false
  | a :: as, b :: bs => a == b && listStartsWith as bs

/-- `listHasSub needle hay` is true when `needle` occurs contiguously
anywhere in `hay`. -/
def listHasSub (needle : List Char) : List Char → Bool
  | [] => listStartsWith [] needle
  | c :: t => listStartsWith (c :: t) needle || listHasSub needle t

/-- JavaScript `s.includes(sub)`. -/
def strContains (s sub : String) : Bool :=
  listHasSub sub.toList s.toList

/-- `RelayStatus` from `indexer/src/types.ts`. -/
inductive RelayStatus
  | pending
  | polling
  | attested
  | submitted
  | confirmed
  | failed
  deriving DecidableEq, Repr

/-- The `outcome` values recorded by the submitter
(`"forwarded" | "fallback" | "operator_routed"`). -/
inductive Outcome
  | forwarded
  | fallback
  | operator_routed
  deriving DecidableEq, Repr

/-- `RelayJob` from `indexer/src/types.ts`.  `ethTxHash` is the spec's
`destTxHash` and `irisNonce` the spec's `attestationNonce`. -/
structure RelayJob where
  txHash : String
  sourceDomain : Nat
  attestedMessage : Option String
  attestation : Option String
  irisNonce : Option String
  mintRecipient : Option String
  destinationDomain : Option Nat
  amount : Option String
  ethTxHash : Option String
  ethBlockNumber : Option Nat
  status : RelayStatus
  outcome : Option Outcome
  error : Option String
  pollAttempts : Nat
  retryCount : Nat
  createdAt : Nat
  attestedAt : Option Nat
  submittedAt : Option Nat
  confirmedAt : Option Nat
  updatedAt : Nat
  deriving DecidableEq, Repr

/-- `Partial<RelayJob>` as accepted by `store.updateJob`: exactly the
columns of `columnMap` in `indexer/src/store.ts` (neither `txHash` nor
`createdAt` is updatable; `updatedAt` is always refreshed separately).
An outer `none` means the field is absent from the update. -/
structure JobUpdate where
  sourceDomain : Option Nat := none
  attestedMessage : Option (Option String) := none
  attestation : Option (Option String) := none
  irisNonce : Option (Option String) := none
  mintRecipient : Option (Option String) := none
  destinationDomain : Option (Option Nat) := none
  amount : Option (Option String) := none
  ethTxHash : Option (Option String) := none
  ethBlockNumber : Option (Option Nat) := none
  status : Option RelayStatus := none
  outcome : Option (Option Outcome) := none
  error : Option (Option String) := none
  pollAttempts : Option Nat := none
  retryCount : Option Nat := none
  attestedAt : Option (Option Nat) := none
  submittedAt : Option (Option Nat) := none
  confirmedAt : Option (Option Nat) := none
  deriving DecidableEq, Repr

/-- Apply a partial update to one row: present fields overwrite, absent
fields are kept, and `updatedAt` is always set to `now`
(`sets = ["updated_at = @updated_at", ...]` in `store.updateJob`). -/
def applyUpdate (j : RelayJob) (u : JobUpdate) (now : Nat) : RelayJob where
  txHash := j.txHash
  sourceDomain := u.sourceDomain.getD j.sourceDomain
  attestedMessage := u.attestedMessage.getD j.attestedMessage
  attestation := u.attestation.getD j.attestation
  irisNonce := u.irisNonce.getD j.irisNonce
  mintRecipient := u.mintRecipient.getD j.mintRecipient
  destinationDomain := u.destinationDomain.getD j.destinationDomain
  amount := u.amount.getD j.amount
  ethTxHash := u.ethTxHash.getD j.ethTxHash
  ethBlockNumber := u.ethBlockNumber.getD j.ethBlockNumber
  status := u.status.getD j.status
  outcome := u.outcome.getD j.outcome
  error := u.error.getD j.error
  pollAttempts := u.pollAttempts.getD j.pollAttempts
  retryCount := u.retryCount.getD j.retryCount
  createdAt := j.createdAt
  attestedAt := u.attestedAt.getD j.attestedAt
  submittedAt := u.submittedAt.getD j.submittedAt
  confirmedAt := u.confirmedAt.getD j.confirmedAt
  updatedAt := now

/-- `SELECT * FROM relay_jobs WHERE tx_hash = ?` (`store.getJob`). -/
def getJob (st : List RelayJob) (tx : String) : Option RelayJob :=
  st.find? (fun j => j.txHash == tx)

/-- `UPDATE relay_jobs SET ... WHERE tx_hash = ?` (`store.updateJob`). -/
def updateJob (st : List RelayJob) (tx : String) (u : JobUpdate) (now : Nat) :
    List RelayJob :=
  st.map (fun j => if j.txHash == tx then applyUpdate j u now else j)

/-- Accumulator of the minimum-`createdAt` scan backing
`ORDER BY created_at ASC LIMIT 1`. -/
def olderOf (acc : Option RelayJob) (j : RelayJob) : Option RelayJob :=
  match acc with
  | none => some j
  | some a => if j.createdAt < a.createdAt then some j else some a

/-- `SELECT * FROM relay_jobs WHERE status = ? ORDER BY created_at ASC
LIMIT 1` (`store.getOldestByStatus`). -/
def getOldestByStatus (st : List RelayJob) (s : RelayStatus) : Option RelayJob :=
  (st.filter (fun j => j.status == s)).foldl olderOf none

/-- The submitter's work selection (`store.getOldestByStatus("attested")`
in `startSubmitter`): the only query by which the submitter ever picks up
a job. -/
def submitterSelect (st : List RelayJob) : Option RelayJob :=
  getOldestByStatus st .attested

/-- `VALID_SOURCE_DOMAINS` from `indexer/src/api.ts`. -/
def VALID_SOURCE_DOMAINS : List Nat :=
  [1, 2, 3, 6, 7, 10, 11, 12, 13, 14, 15, 16, 18, 19, 21, 22]

/-- One character of the class `[a-fA-F0-9]`. -/
def isHexDigitChar (c : Char) : Bool :=
  ('0' ≤ c && c ≤ '9') || ('a' ≤ c && c ≤ 'f') || ('A' ≤ c && c ≤ 'F')

/-- `TX_HASH_REGEX = /^0x[a-fA-F0-9]\x7b64\x7d$/` from `indexer/src/api.ts`. -/
def txHashValidFormat (s : String) : Bool :=
  match s.toList with
  | '0' :: 'x' :: rest => rest.length == 64 && rest.all isHexDigitChar
  | _ => false

/-- Response body of the intake endpoints: HTTP code plus the JSON
fields that appear in `POST /relay` responses. -/
structure PostResponse where
  code : Nat
  txHash : Option String := none
  status : Option RelayStatus := none
  error : Option String := none
  message : Option String := none
  deriving DecidableEq, Repr

/-- The fresh row inserted by `POST /relay` (`store.createJob` call in
`indexer/src/api.ts`). -/
def newRelayJob (tx : String) (dom : Nat) (now : Nat) : RelayJob where
  txHash := tx
  sourceDomain := dom
  attestedMessage := none
  attestation := none
  irisNonce := none
  mintRecipient := none
  destinationDomain := none
  amount := none
  ethTxHash := none
  ethBlockNumber := none
  status := .pending
  outcome := none
  error := none
  pollAttempts := 0
  retryCount := 0
  createdAt := now
  attestedAt := none
  submittedAt := none
  confirmedAt := none
  updatedAt := now

/-- `POST /relay` from `indexer/src/api.ts`: validate `sourceDomain`
against the allow-list, validate the tx-hash format, normalize to
lowercase, return the existing row (200) or insert a `pending` row (201).
Returns the response and the resulting store. -/
def postRelay (st : List RelayJob) (sourceDomain : Nat) (txHash : String)
    (now : Nat) : PostResponse × List RelayJob :=
  if sourceDomain ∉ VALID_SOURCE_DOMAINS then
    ({ code := 400, error := some "Invalid sourceDomain" }, st)
  else if txHashValidFormat txHash = false then
    ({ code := 400, error := some "Invalid txHash format" }, st)
  else
    let normalizedTxHash := strToLower txHash
    match getJob st normalizedTxHash with
    | some existing =>
        ({ code := 200, txHash := some existing.txHash,
           status := some existing.status,
           message := some "Relay job already exists." }, st)
    | none =>
        ({ code := 201, txHash := some normalizedTxHash,
           status := some RelayStatus.pending,
           message := some "Relay job created. Poll GET /relay/:txHash for status." },
         st ++ [newRelayJob normalizedTxHash sourceDomain now])

/-- The JSON body of a 200 response of `GET /relay/:txHash`: exactly the
ten fields listed in `indexer/src/api.ts`. -/
structure JobView where
  txHash : String
  sourceDomain : Nat
  status : RelayStatus
  outcome : Option Outcome
  error : Option String
  ethTxHash : Option String
  createdAt : Nat
  attestedAt : Option Nat
  submittedAt : Option Nat
  confirmedAt : Option Nat
  deriving DecidableEq, Repr

/-- The projection performed by `GET /relay/:txHash` on an existing job. -/
def toJobView (j : RelayJob) : JobView where
  txHash := j.txHash
  sourceDomain := j.sourceDomain
  status := j.status
  outcome := j.outcome
  error := j.error
  ethTxHash := j.ethTxHash
  createdAt := j.createdAt
  attestedAt := j.attestedAt
  submittedAt := j.submittedAt
  confirmedAt := j.confirmedAt

/-! ## Message validator (`validateAttestedMessage` in `indexer/src/poller.ts`)

The message is the raw byte array produced by `ethers.getBytes(messageHex)`;
the embedding takes the bytes directly. -/

/-- Big-endian interpretation of a byte list (covers both
`DataView.getUint32` on 4 bytes and `ethers.toBigInt` on 32 bytes). -/
def beNat (bs : List Nat) : Nat :=
  bs.foldl (fun a b => a * 256 + b) 0

/-- Lowercase hex digit of a value below 16. -/
def hexDigitChar (n : Nat) : Char :=
  if n < 10 then Char.ofNat ('0'.toNat + n) else Char.ofNat ('a'.toNat + (n - 10))

/-- Two lowercase hex digits of one byte. -/
def byteToHex (b : Nat) : List Char :=
  [hexDigitChar (b / 16), hexDigitChar (b % 16)]

/-- `ethers.hexlify`: `0x`-prefixed lowercase hex of a byte list. -/
def hexlify (bs : List Nat) : String :=
  "0x" ++ String.mk (bs.foldr (fun b acc => byteToHex b ++ acc) [])

/-- `BYTES32_ZERO` from `indexer/src/poller.ts`. -/
def BYTES32_ZERO : String :=
  "0x0000000000000000000000000000000000000000000000000000000000000000"

/-- The `Validation` interface of `indexer/src/poller.ts`; fields absent
from a returned object are `none`. -/
structure Validation where
  valid : Bool
  reason : Option String := none
  mintRecipient : Option String := none
  destinationDomain : Option Nat := none
  amount : Option String := none
  deriving DecidableEq, Repr

/-- The tail of `validateAttestedMessage` from the mintRecipient check on
(factored out so that theorems can speak about "validation proceeds past
the destinationCaller check").  `ethers.getAddress` additionally applies
EIP-55 checksum casing to the returned address; the embedding keeps the
lowercase hex, which is unobservable here because every comparison the
code performs on it is case-insensitive. -/
def validateMintStage (message : List Nat) (routerAddress : String)
    (destinationDomain : Nat) : Validation :=
  let mintRecipientBytes32 := hexlify ((message.drop 184).take 32)
  let mintRecipient :=
    "0x" ++ String.mk (mintRecipientBytes32.toList.drop (mintRecipientBytes32.length - 40))
  if strToLower mintRecipient ≠ strToLower routerAddress then
    { valid := false,
      reason := some ("mintRecipient " ++ mintRecipient ++ " != router " ++ routerAddress) }
  else
    let amount := toString (beNat ((message.drop 216).take 32))
    { valid := true, mintRecipient := some mintRecipient,
      destinationDomain := some destinationDomain, amount := some amount }

/-- `validateAttestedMessage` from `indexer/src/poller.ts`: length check,
destinationDomain (big-endian u32 at offset 8) must be 0, destinationCaller
(bytes 108..140) must be all-zero or the router's bytes32 (case-insensitive),
then the mintRecipient/amount stage. -/
def validateAttestedMessage (message : List Nat) (routerAddress : String)
    (routerBytes32 : String) : Validation :=
  if message.length < 248 then
    { valid := false, reason := some "message too short" }
  else
    let destinationDomain := beNat ((message.drop 8).take 4)
    if destinationDomain ≠ 0 then
      { valid := false,
        reason := some ("destination domain " ++ toString destinationDomain ++ " != 0 (Ethereum)") }
    else
      let destinationCaller := hexlify ((message.drop 108).take 32)
      if destinationCaller ≠ BYTES32_ZERO ∧
          strToLower destinationCaller ≠ strToLower routerBytes32 then
        { valid := false,
          reason := some ("destinationCaller " ++ destinationCaller ++ " != router or zero") }
      else
        validateMintStage message routerAddress destinationDomain

/-! ## Outcome classifier (`startSubmitter` in `indexer/src/submitter.ts`)

The four topic constants are `ethers.id(signature)`, i.e. the keccak-256
hash of the canonical event signature, as emitted at build time from
`indexer/src/abis.ts`. -/

/-- `ethers.id("Relayed(uint32,bytes32,bytes32,uint256,uint256)")`. -/
def RELAYED_TOPIC0 : String :=
  "0xb1b3d3f595a1a6e6243a05d09e43f6ee675e330ae3c6377488e66485eebeb67b"

/-- `ethers.id("FallbackTriggered(address,uint256,uint256)")`. -/
def FALLBACK_TRIGGERED_TOPIC0 : String :=
  "0xd3bcb21192b8555597fbf504e5e863600d119c6bea6f2b080ad7c9ccca5fe9dd"

/-- `ethers.id("RecoveredFromConsumedNonce(bytes32,uint256)")`. -/
def RECOVERED_FROM_CONSUMED_NONCE_TOPIC0 : String :=
  "0xd1e2bfef0d78343bee0a5dc71d25faffdc599dfe7f6bc64892126acf63944087"

/-- `ethers.id("OperatorRouted(bytes32,bytes32,uint256,uint8)")`. -/
def OPERATOR_ROUTED_TOPIC0 : String :=
  "0x4d3269154090f1e7c4a4453546ebf50a4e124e80eacf740adebeacc962065b47"

/-- A receipt log as far as the submitter inspects it: its topics list
(`log.topics[0]` is `topics.head?`). -/
structure EthLog where
  topics : List String
  deriving DecidableEq, Repr

/-- The submitter's outcome determination from `receipt.logs`
(`submitter.ts` lines 69-98): `find` each known topic, then the
`if relayedLog / else if fallbackLog / else if operatorRoutedLog` chain.
The `recoveredLog` lookup only drives a `console.warn`. -/
def classifyOutcome (logs : List EthLog) : Option Outcome :=
  let relayedLog := logs.find? (fun l => l.topics.head? == some RELAYED_TOPIC0)
  let fallbackLog := logs.find? (fun l => l.topics.head? == some FALLBACK_TRIGGERED_TOPIC0)
  let operatorRoutedLog := logs.find? (fun l => l.topics.head? == some OPERATOR_ROUTED_TOPIC0)
  if relayedLog.isSome then some .forwarded
  else if fallbackLog.isSome then some .fallback
  else if operatorRoutedLog.isSome then some .operator_routed
  else none

/-- The outcome function as the spec words it: `forwarded` if some log's
first topic matches the `Relayed` signature, else `fallback` if some log
matches `FallbackTriggered`, else `operator_routed` if some log matches
`OperatorRouted`, else no outcome. -/
def specClassifyOutcome (logs : List EthLog) : Option Outcome :=
  if logs.any (fun l => l.topics.head? == some RELAYED_TOPIC0) then some .forwarded
  else if logs.any (fun l => l.topics.head? == some FALLBACK_TRIGGERED_TOPIC0) then some .fallback
  else if logs.any (fun l => l.topics.head? == some OPERATOR_ROUTED_TOPIC0) then some .operator_routed
  else none

/-! ## Submitter store updates (`startSubmitter` in `indexer/src/submitter.ts`) -/

/-- The terminal-failure test of the submitter's catch block: the error
message contains one of five fixed substrings. -/
def isTerminalMessage (msg : String) : Bool :=
  strContains msg "transfer settled" ||
  strContains msg "Nonce already used" ||
  strContains msg "invalid destinationDomain" ||
  strContains msg "invalid destinationCaller" ||
  strContains msg "invalid mintRecipient"

/-- Update persisted after broadcasting (`ethTxHash`, `status: "submitted"`,
`submittedAt`). -/
def submittedUpdate (ethTx : String) (now : Nat) : JobUpdate where
  ethTxHash := some (some ethTx)
  status := some .submitted
  submittedAt := some (some now)

/-- Update persisted after one confirmation (`ethBlockNumber`,
`confirmedAt`, `outcome`, `status: "confirmed"`). -/
def confirmUpdate (blockNumber : Nat) (now : Nat) (outcome : Option Outcome) :
    JobUpdate where
  ethBlockNumber := some (some blockNumber)
  confirmedAt := some (some now)
  outcome := some outcome
  status := some .confirmed

/-- Update persisted for a failure that ends in `status: "failed"`
(both the terminal branch and the retries-exhausted branch pass the same
fields). -/
def failedUpdate (msg : String) (newRetryCount : Nat) : JobUpdate where
  status := some .failed
  error := some (some msg)
  retryCount := some newRetryCount

/-- Update persisted for a transient failure below `maxRetries`
(status is left untouched, so the job stays `attested`). -/
def transientKeepUpdate (msg : String) (newRetryCount : Nat) : JobUpdate where
  error := some (some msg)
  retryCount := some newRetryCount

/-- The submitter's catch block as a function of the fetched job, the
failure message and `config.maxRetries`: which update gets persisted. -/
def submitterFailureUpdate (job : RelayJob) (msg : String) (maxRetries : Nat) :
    JobUpdate :=
  if isTerminalMessage msg then
    failedUpdate msg (job.retryCount + 1)
  else
    let newRetryCount := job.retryCount + 1
    if newRetryCount ≥ maxRetries then
      failedUpdate msg newRetryCount
    else
      transientKeepUpdate msg newRetryCount

/-! ## Poller store updates (`startPoller` in `indexer/src/poller.ts`) -/

/-- Attestation-timeout transition. -/
def timeoutFailUpdate : JobUpdate where
  status := some .failed
  error := some (some "attestation_timeout")

/-- `pending → polling` transition. -/
def toPollingUpdate : JobUpdate where
  status := some .polling

/-- Transition on message-validation failure. -/
def validationFailUpdate (reason : String) : JobUpdate where
  status := some .failed
  error := some (some reason)

/-- Transition to `attested` with the attestation payload and the decoded
fields of a successful validation. -/
def attestedUpdate (msg att nonce : String) (v : Validation) (now : Nat)
    (newPollAttempts : Nat) : JobUpdate where
  status := some .attested
  attestedMessage := some (some msg)
  attestation := some (some att)
  irisNonce := some (some nonce)
  mintRecipient := some v.mintRecipient
  destinationDomain := some v.destinationDomain
  amount := some v.amount
  attestedAt := some (some now)
  pollAttempts := some newPollAttempts

/-- Poll-attempt counter bump when no attestation arrived. -/
def pollAttemptUpdate (newPollAttempts : Nat) : JobUpdate where
  pollAttempts := some newPollAttempts

/-! ## System transitions

One inductive step per store mutation the three components perform.
Wall-clock guards (the attestation-timeout comparison, sleeps) and the
upstream/chain responses are abstracted: a step may fire at any time its
status guard — the condition under which the code reaches that
`store.updateJob` call for a job it fetched — holds, which over-
approximates the real schedules.  The poller fetches its batch with
status ∈ \x7bpending, polling\x7d, the submitter with
`getOldestByStatus("attested")`; the submitter's post-broadcast updates
act on the job it just moved to `submitted`. -/
inductive SysStep : List RelayJob → List RelayJob → Prop
  | intake (st : List RelayJob) (sourceDomain : Nat) (txHash : String) (now : Nat) :
      SysStep st (postRelay st sourceDomain txHash now).2
  | pollerTimeout (st : List RelayJob) (j : RelayJob) (now : Nat)
      (hmem : j ∈ st) (hstat : j.status = .pending ∨ j.status = .polling) :
      SysStep st (updateJob st j.txHash timeoutFailUpdate now)
  | pollerToPolling (st : List RelayJob) (j : RelayJob) (now : Nat)
      (hmem : j ∈ st) (hstat : j.status = .pending) :
      SysStep st (updateJob st j.txHash toPollingUpdate now)
  | pollerValidationFail (st : List RelayJob) (j : RelayJob) (reason : String)
      (now : Nat) (hmem : j ∈ st)
      (hstat : j.status = .pending ∨ j.status = .polling) :
      SysStep st (updateJob st j.txHash (validationFailUpdate reason) now)
  | pollerAttested (st : List RelayJob) (j : RelayJob) (msg att nonce : String)
      (v : Validation) (now : Nat) (hmem : j ∈ st)
      (hstat : j.status = .pending ∨ j.status = .polling)
      (hv : v.valid = true) :
      SysStep st (updateJob st j.txHash
        (attestedUpdate msg att nonce v now (j.pollAttempts + 1)) now)
  | pollerNoResult (st : List RelayJob) (j : RelayJob) (now : Nat)
      (hmem : j ∈ st) (hstat : j.status = .pending ∨ j.status = .polling) :
      SysStep st (updateJob st j.txHash (pollAttemptUpdate (j.pollAttempts + 1)) now)
  | submitterSubmit (st : List RelayJob) (j : RelayJob) (ethTx : String) (now : Nat)
      (hsel : submitterSelect st = some j) :
      SysStep st (updateJob st j.txHash (submittedUpdate ethTx now) now)
  | submitterConfirm (st : List RelayJob) (j : RelayJob) (logs : List EthLog)
      (blockNumber now : Nat) (hmem : j ∈ st) (hstat : j.status = .submitted) :
      SysStep st (updateJob st j.txHash
        (confirmUpdate blockNumber now (classifyOutcome logs)) now)
  | submitterFail (st : List RelayJob) (j : RelayJob) (msg : String)
      (maxRetries now : Nat) (hmem : j ∈ st)
      (hstat : j.status = .attested ∨ j.status = .submitted) :
      SysStep st (updateJob st j.txHash (submitterFailureUpdate j msg maxRetries) now)

/-- States reachable from the empty store (the idempotently created,
initially empty `relay_jobs` table). -/
inductive Reachable : List RelayJob → Prop
  | init : Reachable []
  | step {s s' : List RelayJob} (h : Reachable s) (hs : SysStep s s') : Reachable s'

/-! ## Token bucket (`indexer/src/ratelimit.ts`)

Time is in seconds as a rational (`Date.now()` millisecond readings divided
by 1000, as the code itself does for `elapsed` and `waitMs`).  `acquire` is
modelled as the sequential trace semantics: each call runs to completion
before the next starts, matching the one caller in the program (the poller
loop `await`s every `irisRateLimiter.acquire()`), and `sleep(waitMs)`
resumes exactly `waitMs` later. -/

/-- Mutable state of a `TokenBucket`: `tokens` and `lastRefill`. The
constructor arguments `maxTokens` (burst `B`) and `refillRate` (`R`) are
carried as parameters of the operations. -/
structure BucketState where
  tokens : ℚ
  lastRefill : ℚ
  deriving DecidableEq, Repr

/-- `new TokenBucket(maxTokens, rate)` at time `now`: `tokens = maxTokens`,
`lastRefill = now`. -/
def mkBucket (maxTokens : ℚ) (now : ℚ) : BucketState where
  tokens := maxTokens
  lastRefill := now

/-- `TokenBucket.refill` at clock reading `now`:
`tokens = min(maxTokens, tokens + elapsed * refillRate)`. -/
def refill (B R : ℚ) (s : BucketState) (now : ℚ) : BucketState where
  tokens := min B (s.tokens + (now - s.lastRefill) * R)
  lastRefill := now

/-- `TokenBucket.acquire()` called at time `t`: refill; if fewer than one
token, sleep `(1 - tokens) / refillRate` seconds and refill again; then
consume one token.  Returns the new state and the completion time. -/
def acquireStep (B R : ℚ) (s : BucketState) (t : ℚ) : BucketState × ℚ :=
  let s₁ := refill B R s t
  if s₁.tokens < 1 then
    let wait := (1 - s₁.tokens) / R
    let s₂ := refill B R s₁ (t + wait)
    (⟨s₂.tokens - 1, s₂.lastRefill⟩, t + wait)
  else
    (⟨s₁.tokens - 1, s₁.lastRefill⟩, t)

/-- Completion times of a sequence of `acquire()` calls issued at the
given times. -/
def acquireRun (B R : ℚ) : BucketState → List ℚ → List ℚ
  | _, [] => []
  | s, t :: ts =>
      (acquireStep B R s t).2 :: acquireRun B R (acquireStep B R s t).1 ts

/-- A call schedule is admissible when each call happens no earlier than
the bucket's last refill — i.e. the clock is monotone and, sequentially,
no call starts before the previous one completed. -/
def admissible (B R : ℚ) : BucketState → List ℚ → Prop
  | _, [] => True
  | s, t :: ts => s.lastRefill ≤ t ∧ admissible B R (acquireStep B R s t).1 ts

/-! ## Concrete instances used by the theorems -/

/-- A syntactically valid source tx hash in uppercase hex. -/
def demoTxUpper : String := "0x" ++ String.mk (List.replicate 64 'A')

/-- The same hash normalized to lowercase (the stored key). -/
def demoTxLower : String := "0x" ++ String.mk (List.replicate 64 'a')

/-- A concrete router address (lowercase hex). -/
def demoRouter : String := "0x1111111111111111111111111111111111111111"

/-- `ethers.zeroPadValue(demoRouter, 32)`. -/
def demoRouterB32 : String :=
  "0x0000000000000000000000001111111111111111111111111111111111111111"

/-- A 247-byte message: one byte below the minimum length. -/
def demoMsg247 : List Nat := List.replicate 247 0

/-- A 248-byte message whose destinationDomain is 0, destinationCaller is
all-zero, mintRecipient is `demoRouter` and amount is 0. -/
def demoMsg248 : List Nat :=
  List.replicate 184 0 ++ (List.replicate 12 0 ++ List.replicate 20 0x11) ++
    List.replicate 32 0

/-- A 248-byte message whose destinationDomain is 0 but whose
destinationCaller is a nonzero value different from the router. -/
def demoMsgBadCaller : List Nat :=
  List.replicate 108 0 ++ List.replicate 32 0x22 ++ List.replicate 108 0

/-- A job stranded in `submitted` (crash after broadcast, before the
confirmation handling persisted anything). -/
def c1Job : RelayJob :=
  { newRelayJob demoTxLower 3 100 with
      status := .submitted
      attestedMessage := some "0xmm"
      attestation := some "0xaa"
      ethTxHash := some "0xdddd"
      attestedAt := some 102
      submittedAt := some 103
      updatedAt := 103 }

/-- A store holding only the stranded `submitted` job — the state a
restart starts from. -/
def c1Store : List RelayJob := [c1Job]

/-- A successful validation result, as handed to the `attested` update. -/
def demoValidation : Validation :=
  { valid := true, mintRecipient := some demoRouter,
    destinationDomain := some 0, amount := some "5" }

/-- The row created by the intake for `demoTxUpper`. -/
def demoJob1 : RelayJob := newRelayJob demoTxLower 3 100

/-- `demoJob1` after the `pending → polling` transition. -/
def demoJob2 : RelayJob := applyUpdate demoJob1 toPollingUpdate 101

/-- `demoJob2` after the `attested` transition. -/
def demoJob3 : RelayJob :=
  applyUpdate demoJob2
    (attestedUpdate "0xmm" "0xaa" "77" demoValidation 102 (demoJob2.pollAttempts + 1)) 102

/-- `demoJob3` after the submitter broadcast. -/
def demoJob4 : RelayJob := applyUpdate demoJob3 (submittedUpdate "0xdd" 103) 103

/-- `demoJob4` confirmed against a receipt with no recognized logs:
`outcome` stays `null` while `status` becomes `confirmed`. -/
def demoJob5 : RelayJob :=
  applyUpdate demoJob4 (confirmUpdate 999 104 (classifyOutcome [])) 104

/-- `demoJob4` confirmed against a receipt carrying a `Relayed` log. -/
def demoJob5F : RelayJob :=
  applyUpdate demoJob4
    (confirmUpdate 999 104 (classifyOutcome [EthLog.mk [RELAYED_TOPIC0]])) 104

/-- Store after the intake step. -/
def demoSt1 : List RelayJob := (postRelay [] 3 demoTxUpper 100).2

/-- Store after the `pending → polling` step. -/
def demoSt2 : List RelayJob := updateJob demoSt1 demoJob1.txHash toPollingUpdate 101

/-- Store after the `attested` step. -/
def demoSt3 : List RelayJob :=
  updateJob demoSt2 demoJob2.txHash
    (attestedUpdate "0xmm" "0xaa" "77" demoValidation 102 (demoJob2.pollAttempts + 1)) 102

/-- Store after the `submitted` step. -/
def demoSt4 : List RelayJob :=
  updateJob demoSt3 demoJob3.txHash (submittedUpdate "0xdd" 103) 103

/-- Store after confirming with an empty log set. -/
def demoSt5 : List RelayJob :=
  updateJob demoSt4 demoJob4.txHash (confirmUpdate 999 104 (classifyOutcome [])) 104

/-- Store after confirming with a `Relayed` log. -/
def demoSt5F : List RelayJob :=
  updateJob demoSt4 demoJob4.txHash
    (confirmUpdate 999 104 (classifyOutcome [EthLog.mk [RELAYED_TOPIC0]])) 104

/-- The store invariant carried through every transition: tx hashes are
unique (the primary key) and `outcome` is only ever set on `confirmed`
rows. -/
def StoreInv (st : List RelayJob) : Prop :=
  (st.map (fun j => j.txHash)).Nodup ∧
  ∀ j ∈ st, j.outcome ≠ none → j.status = .confirmed

/-! ## Theorems -/

/-- C9: the `GET /relay/:txHash` response for an existing job is exactly
the ten fields txHash, sourceDomain, status, outcome, error, destTxHash
(`ethTxHash`), createdAt, attestedAt, submittedAt and confirmedAt; and two
jobs differing only in attestedMessage, attestation, attestationNonce
(`irisNonce`), mintRecipient, destinationDomain, amount, destBlockNumber
(`ethBlockNumber`), pollAttempts, retryCount or updatedAt produce
identical responses, so none of those fields leaks. -/
theorem claim_status_view_projection :
    (∀ j : RelayJob, toJobView j =
      { txHash := j.txHash, sourceDomain := j.sourceDomain, status := j.status,
        outcome := j.outcome, error := j.error, ethTxHash := j.ethTxHash,
        createdAt := j.createdAt, attestedAt := j.attestedAt,
        submittedAt := j.submittedAt, confirmedAt := j.confirmedAt }) ∧
    (∀ (j : RelayJob) (am att non mr : Option String) (dd : Option Nat)
        (amt : Option String) (bn : Option Nat) (pa rc ua : Nat),
      toJobView
        { j with attestedMessage := am, attestation := att, irisNonce := non,
                 mintRecipient := mr, destinationDomain := dd, amount := amt,
                 ethBlockNumber := bn, pollAttempts := pa, retryCount := rc,
                 updatedAt := ua } = toJobView j) :=
  ⟨fun _ => rfl, fun _ _ _ _ _ _ _ _ _ _ _ => rfl⟩

/-- C1: the claimed startup rescue of `submitted` jobs does not exist in
the code.  On the failing input — a store whose only job is stranded in
`submitted` with its destination tx hash recorded — the submitter's sole
work query, `getOldestByStatus("attested")`, returns nothing, so the job
is never looked up, classified or requeued. -/
theorem claim_submitted_rescue_missing :
    c1Job.status = RelayStatus.submitted ∧
    c1Job.ethTxHash = some "0xdddd" ∧
    submitterSelect c1Store = none ∧
    getOldestByStatus c1Store .attested = none := by
  decide

/-- C10: `POST /relay` validation failures are atomic with respect to the
store: a sourceDomain outside the allow-list, or a txHash not matching
`^0x[a-fA-F0-9]\x7b64\x7d$`, yields a 400 response and leaves the store
completely unchanged, because both checks precede any store access. -/
theorem claim_post_relay_reject_atomic :
    ∀ (st : List RelayJob) (sourceDomain : Nat) (txHash : String) (now : Nat),
      (sourceDomain ∉ VALID_SOURCE_DOMAINS →
        postRelay st sourceDomain txHash now =
          ({ code := 400, error := some "Invalid sourceDomain" }, st)) ∧
      (sourceDomain ∈ VALID_SOURCE_DOMAINS → txHashValidFormat txHash = false →
        postRelay st sourceDomain txHash now =
          ({ code := 400, error := some "Invalid txHash format" }, st)) := by
  intro st dom tx now
  constructor
  · intro h
    simp [postRelay, h]
  · intro h1 h2
    simp [postRelay, h1, h2]

/-- Witness for C10 at a concrete invalid input: domain 0 (the
destination's own domain, absent from the allow-list) is rejected with
400 and the store is untouched. -/
theorem claim_post_relay_reject_atomic_witness :
    postRelay [c1Job] 0 "0x00" 7 =
      ({ code := 400, error := some "Invalid sourceDomain" }, [c1Job]) :=
  (claim_post_relay_reject_atomic [c1Job] 0 "0x00" 7).1 (by decide)

/-- An element produced by `olderOf` is its second argument or the
accumulator's content. -/
lemma olderOf_eq_some (acc : Option RelayJob) (x j : RelayJob)
    (h : olderOf acc x = some j) : j = x ∨ acc = some j := by
  cases acc with
  | none =>
    simp [olderOf] at h
    exact Or.inl h.symm
  | some b =>
    simp only [olderOf] at h
    by_cases hlt : x.createdAt < b.createdAt
    · rw [if_pos hlt] at h
      exact Or.inl (by injection h with h'; exact h'.symm)
    · rw [if_neg hlt] at h
      exact Or.inr h

/-- The minimum scan only ever returns a list element or the initial
accumulator. -/
lemma foldl_olderOf_mem :
    ∀ (l : List RelayJob) (acc : Option RelayJob) (j : RelayJob),
      l.foldl olderOf acc = some j → j ∈ l ∨ acc = some j := by
  intro l
  induction l with
  | nil => exact fun acc j h => Or.inr h
  | cons a t ih =>
    intro acc j h
    simp only [List.foldl_cons] at h
    rcases ih _ j h with hm | hacc
    · exact Or.inl (List.mem_cons_of_mem _ hm)
    · rcases olderOf_eq_some acc a j hacc with rfl | h'
      · exact Or.inl (List.mem_cons_self _ _)
      · exact Or.inr h'

/-- A job returned by `getOldestByStatus` is in the store and has the
queried status. -/
lemma getOldestByStatus_mem_status (st : List RelayJob) (s : RelayStatus)
    (j : RelayJob) (h : getOldestByStatus st s = some j) :
    j ∈ st ∧ j.status = s := by
  unfold getOldestByStatus at h
  rcases foldl_olderOf_mem _ _ _ h with hm | habs
  · have hmf := List.mem_filter.mp hm
    exact ⟨hmf.1, by simpa using hmf.2⟩
  · cases habs

/-- C3 counterexample: the "keeps status `attested` / reavailable next
iteration" clause fails for a submission failure that happens after the
broadcast.  `demoJob4` was persisted as `submitted` (submitter lines
54-58) before its receipt came back reverted; the revert message
`Tx reverted: 0xdd` matches none of the five terminal substrings, the
incremented retryCount 1 is below `maxRetries = 3`, and the catch block's
transient branch writes only the error and counter — the job stays
`submitted`, not `attested`, and the submitter's work query can never
return it again. -/
theorem claim_failure_classifier_cex :
    isTerminalMessage "Tx reverted: 0xdd" = false ∧
    demoJob4.status = RelayStatus.submitted ∧
    demoJob4.retryCount + 1 < 3 ∧
    (applyUpdate demoJob4
      (submitterFailureUpdate demoJob4 "Tx reverted: 0xdd" 3) 106).status ≠
      RelayStatus.attested ∧
    (applyUpdate demoJob4
      (submitterFailureUpdate demoJob4 "Tx reverted: 0xdd" 3) 106).status =
      RelayStatus.submitted ∧
    submitterSelect
      [applyUpdate demoJob4
        (submitterFailureUpdate demoJob4 "Tx reverted: 0xdd" 3) 106] = none := by
  decide

/-- C3 amended: the submitter's failure classifier, for every submission
failure (the job the iteration fetched as `attested`, possibly already
moved to `submitted` by the broadcast).  A failure is terminal exactly
when its message contains one of the five fixed substrings; a terminal
failure persists `failed` with the error and `retryCount + 1`; a transient
failure persists `failed` iff the incremented retryCount reaches
`maxRetries`; otherwise only the error and counter are written and the
status is left unchanged — a job still `attested` stays reavailable to
the submitter, while a job already `submitted` (a failure seen at
confirmation) keeps status `submitted` and can never be selected by the
submitter again. -/
theorem claim_failure_classifier :
    ∀ (j : RelayJob) (msg : String) (maxRetries now : Nat),
      j.status = RelayStatus.attested ∨ j.status = RelayStatus.submitted →
      (isTerminalMessage msg =
        (strContains msg "transfer settled" || strContains msg "Nonce already used" ||
         strContains msg "invalid destinationDomain" ||
         strContains msg "invalid destinationCaller" ||
         strContains msg "invalid mintRecipient")) ∧
      (isTerminalMessage msg = true →
        applyUpdate j (submitterFailureUpdate j msg maxRetries) now =
          { j with status := .failed, error := some msg,
                   retryCount := j.retryCount + 1, updatedAt := now }) ∧
      (isTerminalMessage msg = false → maxRetries ≤ j.retryCount + 1 →
        applyUpdate j (submitterFailureUpdate j msg maxRetries) now =
          { j with status := .failed, error := some msg,
                   retryCount := j.retryCount + 1, updatedAt := now }) ∧
      (isTerminalMessage msg = false → j.retryCount + 1 < maxRetries →
        applyUpdate j (submitterFailureUpdate j msg maxRetries) now =
          { j with error := some msg, retryCount := j.retryCount + 1,
                   updatedAt := now } ∧
        (applyUpdate j (submitterFailureUpdate j msg maxRetries) now).status =
          j.status ∧
        (j.status = RelayStatus.submitted →
          ∀ st : List RelayJob,
            submitterSelect st ≠
              some (applyUpdate j (submitterFailureUpdate j msg maxRetries) now))) := by
  intro j msg maxRetries now _hstat
  refine ⟨rfl, ?_, ?_, ?_⟩
  · intro hterm
    simp [submitterFailureUpdate, hterm, failedUpdate, applyUpdate]
  · intro hterm hge
    simp [submitterFailureUpdate, hterm, hge, failedUpdate, applyUpdate]
  · intro hterm hlt
    have hnge : ¬ maxRetries ≤ j.retryCount + 1 := by omega
    have hkeep : (applyUpdate j (submitterFailureUpdate j msg maxRetries) now).status =
        j.status := by
      simp [submitterFailureUpdate, hterm, hnge, transientKeepUpdate, applyUpdate]
    refine ⟨?_, hkeep, ?_⟩
    · simp [submitterFailureUpdate, hterm, hnge, transientKeepUpdate, applyUpdate]
    · intro hsub st hsel
      have hatt := (getOldestByStatus_mem_status st RelayStatus.attested _ hsel).2
      rw [hkeep, hsub] at hatt
      cases hatt

/-- Witness for C3's amended claim at concrete inputs: a terminal
`transfer settled` revert on the attested `demoJob3` fails it with
`retryCount = 1`, and a transient post-broadcast revert on the submitted
`demoJob4` keeps its status unchanged. -/
theorem claim_failure_classifier_witness :
    (applyUpdate demoJob3
        (submitterFailureUpdate demoJob3 "Gas estimation failed: transfer settled" 3) 105 =
      { demoJob3 with status := .failed,
                      error := some "Gas estimation failed: transfer settled",
                      retryCount := demoJob3.retryCount + 1, updatedAt := 105 }) ∧
    (applyUpdate demoJob4
        (submitterFailureUpdate demoJob4 "Tx reverted: 0xdd" 3) 106).status =
      demoJob4.status :=
  ⟨(claim_failure_classifier demoJob3 "Gas estimation failed: transfer settled" 3 105
      (by decide)).2.1 (by decide),
   (((claim_failure_classifier demoJob4 "Tx reverted: 0xdd" 3 106
      (by decide)).2.2.2 (by decide) (by decide)).2.1)⟩

/-- C6: every input shorter than 248 bytes is rejected as
`message too short` (in particular the 247-byte input `demoMsg247`), and
the 248-byte `demoMsg248`, whose destinationDomain, destinationCaller and
mintRecipient fields are all well-formed, is accepted with its
mintRecipient, destinationDomain 0 and the big-endian amount of bytes
216..248 rendered in decimal. -/
theorem claim_validator_length_gate :
    (∀ (m : List Nat) (ra rb : String), m.length < 248 →
      validateAttestedMessage m ra rb =
        { valid := false, reason := some "message too short" }) ∧
    validateAttestedMessage demoMsg247 demoRouter demoRouterB32 =
      { valid := false, reason := some "message too short" } ∧
    (validateAttestedMessage demoMsg248 demoRouter demoRouterB32 =
      { valid := true, mintRecipient := some demoRouter,
        destinationDomain := some 0, amount := some "0" } ∧
     toString (beNat ((demoMsg248.drop 216).take 32)) = "0") := by
  refine ⟨?_, by decide, by decide, by decide⟩
  intro m ra rb h
  simp [validateAttestedMessage, h]

/-- Witness for C6: the length gate applied to the concrete 247-byte
input. -/
theorem claim_validator_length_gate_witness :
    validateAttestedMessage demoMsg247 demoRouter demoRouterB32 =
      { valid := false, reason := some "message too short" } :=
  claim_validator_length_gate.1 demoMsg247 demoRouter demoRouterB32 (by decide)

/-- C7: for a message long enough and bound for domain 0, the
destinationCaller field (bytes 108..140) is accepted — validation moves on
to the mintRecipient stage — exactly when it is all zeros or equals the
router's bytes32 under case-insensitive comparison; any other value is
rejected with reason `destinationCaller X != router or zero`. -/
theorem claim_validator_destination_caller :
    ∀ (m : List Nat) (ra rb : String), 248 ≤ m.length →
      beNat ((m.drop 8).take 4) = 0 →
      (¬(hexlify ((m.drop 108).take 32) = BYTES32_ZERO ∨
          strToLower (hexlify ((m.drop 108).take 32)) = strToLower rb) →
        validateAttestedMessage m ra rb =
          { valid := false,
            reason := some ("destinationCaller " ++ hexlify ((m.drop 108).take 32) ++
              " != router or zero") }) ∧
      ((hexlify ((m.drop 108).take 32) = BYTES32_ZERO ∨
          strToLower (hexlify ((m.drop 108).take 32)) = strToLower rb) →
        validateAttestedMessage m ra rb = validateMintStage m ra 0) := by
  intro m ra rb hlen hdom
  have h1 : ¬ (m.length < 248) := by omega
  constructor
  · intro hbad
    push_neg at hbad
    simp [validateAttestedMessage, h1, hdom, hbad.1, hbad.2]
  · intro hok
    rcases hok with hz | hr
    · simp [validateAttestedMessage, h1, hdom, hz]
    · simp [validateAttestedMessage, h1, hdom, hr]

/-- Witness for C7 at the concrete bad-caller message: a nonzero caller
that is not the router is rejected with the claimed reason. -/
theorem claim_validator_destination_caller_witness :
    validateAttestedMessage demoMsgBadCaller demoRouter demoRouterB32 =
      { valid := false,
        reason := some
          ("destinationCaller 0x2222222222222222222222222222222222222222222222222222222222222222 != router or zero") } :=
  (claim_validator_destination_caller demoMsgBadCaller demoRouter demoRouterB32
    (by decide) (by decide)).1 (by decide)

/-- `find?` succeeds exactly when some element satisfies the predicate. -/
lemma find?_isSome_eq_any {α : Type} (p : α → Bool) (l : List α) :
    (l.find? p).isSome = l.any p := by
  induction l with
  | nil => rfl
  | cons a t ih =>
    cases hp : p a <;> simp [List.find?_cons, hp, ih]

/-- Filtering by a predicate that every `p`-element satisfies does not
change `any p`. -/
lemma any_filter_of_imp {α : Type} (p q : α → Bool) (l : List α)
    (h : ∀ x, p x = true → q x = true) : (l.filter q).any p = l.any p := by
  induction l with
  | nil => rfl
  | cons a t ih =>
    cases hq : q a
    · cases hp : p a
      · simp [List.filter_cons, hq, hp, ih]
      · exact absurd (h a hp) (by simp [hq])
    · simp [List.filter_cons, hq, ih]

/-- C5: the outcome recorded at confirmation is the deterministic
prioritized function of the receipt's log set that the spec describes —
`forwarded` if some log's first topic is the `Relayed` signature hash,
else `fallback` on `FallbackTriggered`, else `operator_routed` on
`OperatorRouted`, else no outcome — and removing every
`RecoveredFromConsumedNonce` log never changes the outcome. -/
theorem claim_outcome_classifier :
    ∀ logs : List EthLog,
      classifyOutcome logs = specClassifyOutcome logs ∧
      classifyOutcome (logs.filter
          (fun l => !(l.topics.head? == some RECOVERED_FROM_CONSUMED_NONCE_TOPIC0))) =
        classifyOutcome logs := by
  have heq : ∀ logs : List EthLog, classifyOutcome logs = specClassifyOutcome logs := by
    intro logs
    unfold classifyOutcome specClassifyOutcome
    simp only [find?_isSome_eq_any]
  intro logs
  refine ⟨heq logs, ?_⟩
  rw [heq, heq]
  unfold specClassifyOutcome
  rw [any_filter_of_imp, any_filter_of_imp, any_filter_of_imp]
  · intro x hx
    have hx' : x.topics.head? = some OPERATOR_ROUTED_TOPIC0 := by simpa using hx
    simp [hx']
    decide
  · intro x hx
    have hx' : x.topics.head? = some FALLBACK_TRIGGERED_TOPIC0 := by simpa using hx
    simp [hx']
    decide
  · intro x hx
    have hx' : x.topics.head? = some RELAYED_TOPIC0 := by simpa using hx
    simp [hx']
    decide

/-- If nothing in `l₁` matches, `find?` over an append searches `l₂`. -/
lemma find?_append_none {α : Type} (p : α → Bool) (l₁ l₂ : List α)
    (h : l₁.find? p = none) : (l₁ ++ l₂).find? p = l₂.find? p := by
  induction l₁ with
  | nil => simp
  | cons a t ih =>
    cases hp : p a
    · simp only [List.find?_cons, hp] at h
      simp only [List.cons_append, List.find?_cons, hp]
      exact ih h
    · simp [List.find?_cons, hp] at h

/-- If `find?` fails then `filter` is empty. -/
lemma filter_eq_nil_of_find?_none {α : Type} (p : α → Bool) (l : List α)
    (h : l.find? p = none) : l.filter p = [] := by
  induction l with
  | nil => rfl
  | cons a t ih =>
    cases hp : p a
    · simp only [List.find?_cons, hp] at h
      simp [List.filter_cons, hp, ih h]
    · simp [List.find?_cons, hp] at h

/-- C4: `POST /relay` is idempotent on the txHash key.  For a valid
`(sourceDomain, txHash)`: when no row exists, the POST returns 201 and
appends exactly one `pending` row keyed by the lowercased hash; when a row
exists, the POST returns 200 echoing that row and leaves the store
untouched (in particular no `updatedAt` refresh, since no update runs at
all); and an immediate replay of a fresh POST returns 200 against an
unchanged store. -/
theorem claim_post_relay_idempotent :
    ∀ (st : List RelayJob) (sourceDomain : Nat) (txHash : String) (now now' : Nat),
      sourceDomain ∈ VALID_SOURCE_DOMAINS → txHashValidFormat txHash = true →
      (getJob st (strToLower txHash) = none →
        postRelay st sourceDomain txHash now =
          ({ code := 201, txHash := some (strToLower txHash),
             status := some RelayStatus.pending,
             message := some "Relay job created. Poll GET /relay/:txHash for status." },
           st ++ [newRelayJob (strToLower txHash) sourceDomain now]) ∧
        ((st ++ [newRelayJob (strToLower txHash) sourceDomain now]).filter
            (fun k => k.txHash == strToLower txHash)).length = 1) ∧
      (∀ j, getJob st (strToLower txHash) = some j →
        postRelay st sourceDomain txHash now =
          ({ code := 200, txHash := some j.txHash, status := some j.status,
             message := some "Relay job already exists." }, st)) ∧
      (getJob st (strToLower txHash) = none →
        postRelay (postRelay st sourceDomain txHash now).2 sourceDomain txHash now' =
          ({ code := 200, txHash := some (strToLower txHash),
             status := some RelayStatus.pending,
             message := some "Relay job already exists." },
           (postRelay st sourceDomain txHash now).2)) := by
  intro st dom tx now now' hdom htx
  refine ⟨?_, ?_, ?_⟩
  · intro hnone
    constructor
    · simp [postRelay, hdom, htx, hnone]
    · rw [List.filter_append, filter_eq_nil_of_find?_none _ _ hnone]
      simp [newRelayJob]
  · intro j hsome
    simp [postRelay, hdom, htx, hsome]
  · intro hnone
    have hst2 : (postRelay st dom tx now).2 =
        st ++ [newRelayJob (strToLower tx) dom now] := by
      simp [postRelay, hdom, htx, hnone]
    have hget2 : getJob (st ++ [newRelayJob (strToLower tx) dom now])
        (strToLower tx) = some (newRelayJob (strToLower tx) dom now) := by
      unfold getJob at hnone ⊢
      rw [find?_append_none _ _ _ hnone]
      simp [newRelayJob]
    simp only [newRelayJob] at hget2
    rw [hst2]
    simp [postRelay, hdom, htx, newRelayJob, hget2]

/-- Witness for C4 at concrete input: posting the uppercase hash to an
empty store creates the lowercase-keyed pending row; replaying it returns
200 and leaves the single-row store unchanged. -/
theorem claim_post_relay_idempotent_witness :
    postRelay [] 3 demoTxUpper 100 =
      ({ code := 201, txHash := some (strToLower demoTxUpper),
         status := some RelayStatus.pending,
         message := some "Relay job created. Poll GET /relay/:txHash for status." },
       [] ++ [newRelayJob (strToLower demoTxUpper) 3 100]) ∧
    postRelay (postRelay [] 3 demoTxUpper 100).2 3 demoTxUpper 200 =
      ({ code := 200, txHash := some (strToLower demoTxUpper),
         status := some RelayStatus.pending,
         message := some "Relay job already exists." },
       (postRelay [] 3 demoTxUpper 100).2) :=
  ⟨((claim_post_relay_idempotent [] 3 demoTxUpper 100 200 (by decide) (by decide)).1
      (by decide)).1,
   (claim_post_relay_idempotent [] 3 demoTxUpper 100 200 (by decide) (by decide)).2.2
      (by decide)⟩

/-- `updateJob` never touches the primary keys. -/
lemma updateJob_txHash_map (st : List RelayJob) (tx : String) (u : JobUpdate)
    (now : Nat) :
    (updateJob st tx u now).map (fun j => j.txHash) = st.map (fun j => j.txHash) := by
  unfold updateJob
  rw [List.map_map]
  apply List.map_congr_left
  intro a _
  by_cases h : (a.txHash == tx) = true
  · simp [Function.comp, h, applyUpdate]
  · simp [Function.comp, h]

/-- `StoreInv` is preserved by an update applied to a member job whose
updated row satisfies the outcome discipline. -/
lemma storeInv_updateJob (st : List RelayJob) (j : RelayJob) (u : JobUpdate)
    (now : Nat) (hInv : StoreInv st) (hmem : j ∈ st)
    (hP : (applyUpdate j u now).outcome ≠ none →
          (applyUpdate j u now).status = RelayStatus.confirmed) :
    StoreInv (updateJob st j.txHash u now) := by
  obtain ⟨hnd, hout⟩ := hInv
  refine ⟨by rw [updateJob_txHash_map]; exact hnd, ?_⟩
  intro k hk
  unfold updateJob at hk
  rcases List.mem_map.mp hk with ⟨j', hj', hk'⟩
  by_cases h : (j'.txHash == j.txHash) = true
  · have hjj : j' = j :=
      List.inj_on_of_nodup_map hnd hj' hmem (eq_of_beq h)
    subst hjj
    rw [if_pos h] at hk'
    subst hk'
    exact hP
  · rw [if_neg h] at hk'
    subst hk'
    exact hout j' hj'

/-- `StoreInv` is preserved by any update that leaves `outcome` untouched
and targets a job that is not `confirmed`. -/
lemma storeInv_updateJob_of_guard (st : List RelayJob) (j : RelayJob)
    (u : JobUpdate) (now : Nat) (hInv : StoreInv st) (hmem : j ∈ st)
    (hstat : j.status ≠ RelayStatus.confirmed) (huout : u.outcome = none) :
    StoreInv (updateJob st j.txHash u now) := by
  apply storeInv_updateJob st j u now hInv hmem
  intro ho
  exfalso
  have hsame : (applyUpdate j u now).outcome = j.outcome := by
    simp [applyUpdate, huout]
  rw [hsame] at ho
  exact hstat (hInv.2 j hmem ho)

/-- Every system transition preserves the store invariant. -/
lemma storeInv_step {st st' : List RelayJob} (hInv : StoreInv st)
    (hs : SysStep st st') : StoreInv st' := by
  cases hs with
  | intake dom tx now =>
    by_cases h1 : dom ∉ VALID_SOURCE_DOMAINS
    · simpa [postRelay, h1] using hInv
    · by_cases h2 : txHashValidFormat tx = false
      · simpa [postRelay, h1, h2] using hInv
      · cases hget : getJob st (strToLower tx) with
        | some ex => simpa [postRelay, h1, h2, hget] using hInv
        | none =>
          have hres : (postRelay st dom tx now).2 =
              st ++ [newRelayJob (strToLower tx) dom now] := by
            simp [postRelay, h1, h2, hget]
          rw [hres]
          obtain ⟨hnd, hout⟩ := hInv
          constructor
          · rw [List.map_append]
            refine List.Nodup.append hnd (by simp) ?_
            intro a ha hb
            simp [newRelayJob] at hb
            subst hb
            rcases List.mem_map.mp ha with ⟨jj, hjj, hja⟩
            have hnotp := List.find?_eq_none.mp hget jj hjj
            apply hnotp
            rw [hja]
            exact beq_self_eq_true _
          · intro k hk
            rcases List.mem_append.mp hk with hk | hk
            · exact hout k hk
            · simp at hk
              subst hk
              intro ho
              exact absurd rfl ho
  | pollerTimeout j now hmem hstat =>
    refine storeInv_updateJob_of_guard _ _ _ _ hInv hmem ?_ rfl
    rcases hstat with h | h <;> simp [h]
  | pollerToPolling j now hmem hstat =>
    exact storeInv_updateJob_of_guard _ _ _ _ hInv hmem (by simp [hstat]) rfl
  | pollerValidationFail j reason now hmem hstat =>
    refine storeInv_updateJob_of_guard _ _ _ _ hInv hmem ?_ rfl
    rcases hstat with h | h <;> simp [h]
  | pollerAttested j msg att nonce v now hmem hstat hv =>
    refine storeInv_updateJob_of_guard _ _ _ _ hInv hmem ?_ rfl
    rcases hstat with h | h <;> simp [h]
  | pollerNoResult j now hmem hstat =>
    refine storeInv_updateJob_of_guard _ _ _ _ hInv hmem ?_ rfl
    rcases hstat with h | h <;> simp [h]
  | submitterSubmit j ethTx now hsel =>
    obtain ⟨hmem, hstat⟩ := getOldestByStatus_mem_status _ _ _ hsel
    exact storeInv_updateJob_of_guard _ _ _ _ hInv hmem (by simp [hstat]) rfl
  | submitterConfirm j logs blockNumber now hmem hstat =>
    apply storeInv_updateJob _ _ _ _ hInv hmem
    intro _
    simp [applyUpdate, confirmUpdate]
  | submitterFail j msg maxRetries now hmem hstat =>
    refine storeInv_updateJob_of_guard _ _ _ _ hInv hmem ?_ ?_
    · rcases hstat with h | h <;> simp [h]
    · simp only [submitterFailureUpdate]
      split_ifs <;> rfl

/-- The intake, poller and submitter steps leading to `demoSt4`: create,
move to polling, attest, submit. -/
lemma demo_reachable4 : Reachable demoSt4 := by
  have h1 : Reachable demoSt1 :=
    Reachable.step Reachable.init (SysStep.intake [] 3 demoTxUpper 100)
  have h2 : Reachable demoSt2 :=
    Reachable.step h1
      (SysStep.pollerToPolling demoSt1 demoJob1 101 (by decide) (by decide))
  have h3 : Reachable demoSt3 :=
    Reachable.step h2
      (SysStep.pollerAttested demoSt2 demoJob2 "0xmm" "0xaa" "77" demoValidation 102
        (by decide) (by decide) (by decide))
  exact Reachable.step h3
    (SysStep.submitterSubmit demoSt3 demoJob3 "0xdd" 103 (by decide))

/-- A full run confirmed against a receipt with no recognized logs. -/
lemma demo_reachable5 : Reachable demoSt5 :=
  Reachable.step demo_reachable4
    (SysStep.submitterConfirm demoSt4 demoJob4 [] 999 104 (by decide) (by decide))

/-- A full run confirmed against a receipt carrying a `Relayed` log. -/
lemma demo_reachable5F : Reachable demoSt5F :=
  Reachable.step demo_reachable4
    (SysStep.submitterConfirm demoSt4 demoJob4 [EthLog.mk [RELAYED_TOPIC0]] 999 104
      (by decide) (by decide))

/-- C2 counterexample: the biconditional `outcome ≠ null ⇔ status =
confirmed` fails on a reachable store.  A job driven through intake,
polling, attestation and submission, then confirmed against a receipt
none of whose logs carries a known topic, is persisted with `status =
confirmed` and `outcome = null`. -/
theorem claim_outcome_iff_confirmed_cex :
    Reachable demoSt5 ∧ demoJob5 ∈ demoSt5 ∧
    demoJob5.status = RelayStatus.confirmed ∧ demoJob5.outcome = none :=
  ⟨demo_reachable5, by decide, by decide, by decide⟩

/-- C2 amended: in every reachable store, a job whose `outcome` is
non-null has `status = confirmed` — the only update that ever writes
`outcome` is the confirmation update, which sets `status = confirmed` in
the same write.  (The converse direction fails: a confirmed job keeps
`outcome = null` when no receipt log matches a known signature.) -/
theorem claim_outcome_only_when_confirmed :
    ∀ st : List RelayJob, Reachable st →
      ∀ j ∈ st, j.outcome ≠ none → j.status = RelayStatus.confirmed := by
  have main : ∀ st : List RelayJob, Reachable st → StoreInv st := by
    intro st h
    induction h with
    | init => exact ⟨by simp, fun j hj => absurd hj (List.not_mem_nil j)⟩
    | step h hs ih => exact storeInv_step ih hs
  intro st h j hj ho
  exact (main st h).2 j hj ho

/-- Witness for C2's amended claim on the reachable store confirmed with
a `Relayed` log: its job has non-null outcome, and the theorem yields
`status = confirmed`. -/
theorem claim_outcome_only_when_confirmed_witness :
    demoJob5F.status = RelayStatus.confirmed :=
  claim_outcome_only_when_confirmed demoSt5F demo_reachable5F demoJob5F
    (by decide) (by decide)

/-- A filter by a predicate false on every element is empty. -/
lemma filter_eq_nil_of_forall {α : Type} (p : α → Bool) (l : List α)
    (h : ∀ x ∈ l, p x = false) : l.filter p = [] := by
  induction l with
  | nil => rfl
  | cons a t ih =>
    simp [List.filter_cons, h a (List.mem_cons_self a t),
      ih (fun x hx => h x (List.mem_cons_of_mem a hx))]

/-- `refill` projection: the token count. -/
lemma refill_tokens (B R : ℚ) (s : BucketState) (now : ℚ) :
    (refill B R s now).tokens = min B (s.tokens + (now - s.lastRefill) * R) := rfl

/-- `refill` projection: the clock. -/
lemma refill_lastRefill (B R : ℚ) (s : BucketState) (now : ℚ) :
    (refill B R s now).lastRefill = now := rfl

/-- A refill never exceeds the burst capacity. -/
lemma refill_tokens_le_cap (B R : ℚ) (s : BucketState) (now : ℚ) :
    (refill B R s now).tokens ≤ B := min_le_left _ _

/-- A refill adds at most `elapsed · R` tokens. -/
lemma refill_tokens_le_linear (B R : ℚ) (s : BucketState) (now : ℚ) :
    (refill B R s now).tokens ≤ s.tokens + (now - s.lastRefill) * R := min_le_right _ _

/-- After the wait prescribed by `acquire`, the second refill lands on
exactly one token (burst at least one, positive rate). -/
lemma refill_after_wait (B R : ℚ) (hB : 1 ≤ B) (hR : 0 < R) (s : BucketState)
    (t : ℚ) :
    (refill B R (refill B R s t) (t + (1 - (refill B R s t).tokens) / R)).tokens = 1 := by
  rw [refill_tokens, refill_lastRefill]
  have hx : t + (1 - (refill B R s t).tokens) / R - t =
      (1 - (refill B R s t).tokens) / R := by ring
  rw [hx]
  have harg : (refill B R s t).tokens + (1 - (refill B R s t).tokens) / R * R = 1 := by
    rw [div_mul_cancel₀ _ (ne_of_gt hR)]
    ring
  rw [harg]
  exact min_eq_right hB

/-- The bucket's `lastRefill` after an acquire equals the completion
time. -/
lemma acquireStep_lastRefill (B R : ℚ) (s : BucketState) (t : ℚ) :
    (acquireStep B R s t).1.lastRefill = (acquireStep B R s t).2 := by
  simp only [acquireStep]
  split_ifs <;> simp [refill_lastRefill]

/-- An acquire completes no earlier than it was called. -/
lemma acquireStep_completion_ge (B R : ℚ) (hR : 0 < R) (s : BucketState) (t : ℚ) :
    t ≤ (acquireStep B R s t).2 := by
  simp only [acquireStep]
  split_ifs with h
  · have hpos : 0 < (1 - (refill B R s t).tokens) / R := div_pos (by linarith) hR
    simp only
    linarith
  · simp

/-- Tokens are nonnegative after every acquire (burst at least one,
positive refill rate). -/
lemma acquireStep_tokens_nonneg (B R : ℚ) (hB : 1 ≤ B) (hR : 0 < R)
    (s : BucketState) (t : ℚ) : 0 ≤ (acquireStep B R s t).1.tokens := by
  simp only [acquireStep]
  split_ifs with h
  · simp only
    rw [refill_after_wait B R hB hR s t]
    norm_num
  · simp only
    have := not_lt.mp h
    linarith

/-- Tokens never exceed `B - 1` right after an acquire. -/
lemma acquireStep_tokens_le_cap (B R : ℚ) (s : BucketState) (t : ℚ) :
    (acquireStep B R s t).1.tokens ≤ B - 1 := by
  simp only [acquireStep]
  split_ifs with h
  · simp only
    have := refill_tokens_le_cap B R (refill B R s t)
      (t + (1 - (refill B R s t).tokens) / R)
    linarith
  · simp only
    have := refill_tokens_le_cap B R s t
    linarith

/-- Telescoping bound: an acquire adds at most `(completion − lastRefill)·R`
tokens and removes one. -/
lemma acquireStep_tokens_le (B R : ℚ) (_hR : 0 ≤ R) (s : BucketState) (t : ℚ) :
    (acquireStep B R s t).1.tokens ≤
      s.tokens + ((acquireStep B R s t).2 - s.lastRefill) * R - 1 := by
  simp only [acquireStep]
  split_ifs with h
  · simp only
    have h1 : (refill B R s t).tokens ≤ s.tokens + (t - s.lastRefill) * R :=
      refill_tokens_le_linear B R s t
    have h2 := refill_tokens_le_linear B R (refill B R s t)
      (t + (1 - (refill B R s t).tokens) / R)
    rw [refill_lastRefill] at h2
    have hring : (t + (1 - (refill B R s t).tokens) / R - s.lastRefill) * R =
        (t - s.lastRefill) * R +
          (t + (1 - (refill B R s t).tokens) / R - t) * R := by
      ring
    linarith
  · simp only
    have h1 : (refill B R s t).tokens ≤ s.tokens + (t - s.lastRefill) * R :=
      refill_tokens_le_linear B R s t
    linarith

/-- Every completion of an admissible run happens at or after the
starting state's `lastRefill`. -/
lemma acquireRun_completions_ge (B R : ℚ) (hR : 0 < R) :
    ∀ (ts : List ℚ) (s : BucketState), admissible B R s ts →
      ∀ c ∈ acquireRun B R s ts, s.lastRefill ≤ c := by
  intro ts
  induction ts with
  | nil => intro s _ c hc; simp [acquireRun] at hc
  | cons t ts ih =>
    intro s hadm c hc
    obtain ⟨ht, hadm'⟩ := hadm
    simp only [acquireRun, List.mem_cons] at hc
    rcases hc with rfl | hc
    · exact le_trans ht (acquireStep_completion_ge B R hR s t)
    · have hrec := ih _ hadm' c hc
      rw [acquireStep_lastRefill] at hrec
      exact le_trans (le_trans ht (acquireStep_completion_ge B R hR s t)) hrec

/-- Counting bound anchored at the current state: the completions up to
time `e` number at most `tokens + (e − lastRefill)·R` (clamped at zero). -/
lemma countLE_bound (B R : ℚ) (hB : 1 ≤ B) (hR : 0 < R) :
    ∀ (ts : List ℚ) (s : BucketState) (e : ℚ), s.tokens ≤ B →
      admissible B R s ts →
      (((acquireRun B R s ts).filter (fun c => decide (c ≤ e))).length : ℚ) ≤
        max 0 (s.tokens + (e - s.lastRefill) * R) := by
  intro ts
  induction ts with
  | nil =>
    intro s e _ _
    simp [acquireRun]
  | cons t ts ih =>
    intro s e htok hadm
    obtain ⟨ht, hadm'⟩ := hadm
    simp only [acquireRun, List.filter_cons]
    by_cases hc : (acquireStep B R s t).2 ≤ e
    · rw [if_pos (by simpa using hc)]
      have hcap := acquireStep_tokens_le_cap B R s t
      have hrest := ih (acquireStep B R s t).1 e (by linarith) hadm'
      rw [acquireStep_lastRefill] at hrest
      have hnn := acquireStep_tokens_nonneg B R hB hR s t
      have hprod : 0 ≤ (e - (acquireStep B R s t).2) * R :=
        mul_nonneg (by linarith) (le_of_lt hR)
      have hmax : max 0 ((acquireStep B R s t).1.tokens +
          (e - (acquireStep B R s t).2) * R) =
          (acquireStep B R s t).1.tokens + (e - (acquireStep B R s t).2) * R :=
        max_eq_right (by linarith)
      rw [hmax] at hrest
      have hstep := acquireStep_tokens_le B R (le_of_lt hR) s t
      have hring : ((acquireStep B R s t).2 - s.lastRefill) * R +
          (e - (acquireStep B R s t).2) * R = (e - s.lastRefill) * R := by
        ring
      have hgoal : (((acquireRun B R (acquireStep B R s t).1 ts).filter
          (fun c => decide (c ≤ e))).length : ℚ) + 1 ≤
          s.tokens + (e - s.lastRefill) * R := by
        linarith
      simp only [List.length_cons]
      push_cast
      exact le_trans (by linarith) (le_max_right 0 (s.tokens + (e - s.lastRefill) * R))
    · rw [if_neg (by simpa using hc)]
      have hge := acquireRun_completions_ge B R hR ts (acquireStep B R s t).1 hadm'
      rw [acquireStep_lastRefill] at hge
      have hempty : (acquireRun B R (acquireStep B R s t).1 ts).filter
          (fun c => decide (c ≤ e)) = [] := by
        apply filter_eq_nil_of_forall
        intro x hx
        simp only [decide_eq_false_iff_not]
        intro hxe
        exact hc (le_trans (hge x hx) hxe)
      rw [hempty]
      simp

/-- A filter by a stronger predicate is no longer than a filter by a
weaker one. -/
lemma length_filter_le_of_imp {α : Type} (p q : α → Bool) (l : List α)
    (h : ∀ x, p x = true → q x = true) :
    (l.filter p).length ≤ (l.filter q).length := by
  induction l with
  | nil => exact Nat.le_refl 0
  | cons a t ih =>
    cases hp : p a
    · cases hq : q a <;> simp [List.filter_cons, hp, hq] <;> omega
    · rw [List.filter_cons, List.filter_cons, hp, h a hp]
      simpa using ih

/-- Over any window `(s₀, e]`, an admissible run completes at most
`B + (e − s₀)·R` acquires. -/
lemma window_bound (B R : ℚ) (hB : 1 ≤ B) (hR : 0 < R) :
    ∀ (ts : List ℚ) (s : BucketState) (s0 e : ℚ), s.tokens ≤ B →
      admissible B R s ts → s0 ≤ e →
      (((acquireRun B R s ts).filter
          (fun c => decide (s0 < c) && decide (c ≤ e))).length : ℚ) ≤
        B + (e - s0) * R := by
  intro ts
  induction ts with
  | nil =>
    intro s s0 e _ _ hse
    have : 0 ≤ (e - s0) * R := mul_nonneg (by linarith) (le_of_lt hR)
    simp [acquireRun]
    linarith
  | cons t ts ih =>
    intro s s0 e htok hadm hse
    obtain ⟨ht, hadm'⟩ := hadm
    have hcap := acquireStep_tokens_le_cap B R s t
    simp only [acquireRun, List.filter_cons]
    by_cases hin : (decide (s0 < (acquireStep B R s t).2) &&
        decide ((acquireStep B R s t).2 ≤ e)) = true
    · rw [if_pos hin]
      have hin' : s0 < (acquireStep B R s t).2 ∧ (acquireStep B R s t).2 ≤ e := by
        simpa using hin
      have hc1 : s0 < (acquireStep B R s t).2 := hin'.1
      have hc2 : (acquireStep B R s t).2 ≤ e := hin'.2
      have hmono : (((acquireRun B R (acquireStep B R s t).1 ts).filter
          (fun c => decide (s0 < c) && decide (c ≤ e))).length : ℚ) ≤
          (((acquireRun B R (acquireStep B R s t).1 ts).filter
            (fun c => decide (c ≤ e))).length : ℚ) := by
        have := length_filter_le_of_imp
          (fun c => decide (s0 < c) && decide (c ≤ e)) (fun c => decide (c ≤ e))
          (acquireRun B R (acquireStep B R s t).1 ts)
          (fun x hx => by
            simp only [Bool.and_eq_true] at hx
            exact hx.2)
        exact_mod_cast this
      have hrest := countLE_bound B R hB hR ts (acquireStep B R s t).1 e
        (by linarith) hadm'
      rw [acquireStep_lastRefill] at hrest
      have hnn := acquireStep_tokens_nonneg B R hB hR s t
      have hprod : 0 ≤ (e - (acquireStep B R s t).2) * R :=
        mul_nonneg (by linarith) (le_of_lt hR)
      have hmax : max 0 ((acquireStep B R s t).1.tokens +
          (e - (acquireStep B R s t).2) * R) =
          (acquireStep B R s t).1.tokens + (e - (acquireStep B R s t).2) * R :=
        max_eq_right (by linarith)
      rw [hmax] at hrest
      have hwin : (e - (acquireStep B R s t).2) * R ≤ (e - s0) * R :=
        mul_le_mul_of_nonneg_right (by linarith) (le_of_lt hR)
      simp only [List.length_cons]
      push_cast
      linarith
    · rw [if_neg (by simpa using hin)]
      exact ih (acquireStep B R s t).1 s0 e (by linarith) hadm' hse

/-- C8: for the token bucket with burst `B` and rate `R`, over any time
window `(s₀, s₀+T]` an admissible sequential run returns from `acquire()`
at most `B + R·T` times; a caller that finds fewer than one token sleeps
`(1 − current)/R` seconds before recomputing; and each immediate return
consumes exactly one token from the refilled count. -/
theorem claim_token_bucket_rate_bound :
    ∀ (B R t₀ s0 T : ℚ) (ts : List ℚ), 1 ≤ B → 0 < R → 0 ≤ T →
      admissible B R (mkBucket B t₀) ts →
      ((((acquireRun B R (mkBucket B t₀) ts).filter
          (fun c => decide (s0 < c) && decide (c ≤ s0 + T))).length : ℚ) ≤
        B + R * T) ∧
      (∀ (s : BucketState) (t : ℚ), (refill B R s t).tokens < 1 →
        (acquireStep B R s t).2 = t + (1 - (refill B R s t).tokens) / R) ∧
      (∀ (s : BucketState) (t : ℚ), ¬ (refill B R s t).tokens < 1 →
        (acquireStep B R s t).1.tokens = (refill B R s t).tokens - 1) := by
  intro B R t₀ s0 T ts hB hR hT hadm
  refine ⟨?_, ?_, ?_⟩
  · have h := window_bound B R hB hR ts (mkBucket B t₀) s0 (s0 + T)
      (le_refl B) hadm (by linarith)
    have hring : (s0 + T - s0) * R = R * T := by ring
    rw [hring] at h
    exact h
  · intro s t h
    simp only [acquireStep]
    rw [if_pos h]
  · intro s t h
    simp only [acquireStep]
    rw [if_neg h]

/-- Witness for C8: a concrete two-call run on a bucket with `B = R = 1`
started at time 0; both completions fall in the window `(-1, 2]` and
`2 ≤ 1 + 1·3`. -/
theorem claim_token_bucket_rate_bound_witness :
    (((acquireRun 1 1 (mkBucket 1 0) [0, 0]).filter
        (fun c => decide ((-1 : ℚ) < c) && decide (c ≤ -1 + 3))).length : ℚ) ≤
      1 + 1 * 3 :=
  (claim_token_bucket_rate_bound 1 1 0 (-1) 3 [0, 0] (by norm_num) (by norm_num)
    (by norm_num)
    (by norm_num [admissible, acquireStep, refill, mkBucket])).1

end XRelay
